import Mathlib

/-!
Shallow embedding of the dynamic_timers integration core
(custom_components/dynamic_timers/timer_manager.py together with the
constants of const.py).

Modelling conventions:
- instants in time are integers (seconds); a duration is an integer;
- a stored timestamp string is a value of type TsStr: either a string
  produced by datetime.isoformat, identified with the instant it denotes,
  or some other string on which datetime.fromisoformat raises;
- the timer collection (the Python dict self dot timers) is an
  association list from names to timer records, in insertion order, with
  the dict guarantee that keys are unique expressed as a Nodup hypothesis
  where a theorem needs it;
- the external dispatch targets (hass.bus.async_fire and
  hass.services.async_call, including template rendering) are abstracted
  as a function from actions to a success flag; an exception raised by
  the external call is modelled by the flag false;
- persistence (async_save) and the sensor update notification are
  modelled by counters or flags recording how often they were invoked.
-/

namespace DynamicTimers

/-- Timer state constants of const.py. -/
def STATE_ACTIVE : String := "active"

def STATE_PAUSED : String := "paused"

/-- Restart behavior constants of const.py. -/
def RESTART_RESUME : String := "resume"

def RESTART_SKIP : String := "skip"

def RESTART_EXECUTE : String := "execute"

/-- Action type constants of const.py. -/
def ACTION_EVENT : String := "event"

def ACTION_SERVICE : String := "service"

/-- A stored timestamp string: either an isoformat output, identified with
the instant it denotes, or any other string, on which
datetime.fromisoformat raises ValueError. -/
inductive TsStr where
  | valid (t : Int)
  | invalid (s : String)
deriving DecidableEq, Repr

/-- Models datetime.fromisoformat: succeeds exactly on isoformat output,
returning the denoted instant. -/
def parseTs : TsStr → Option Int
  | .valid t => some t
  | .invalid _ => none

/-- Python truthiness of a stored timestamp string: isoformat output is
never empty, hence always truthy; any other string is truthy iff it is
non-empty. -/
def TsStr.truthy : TsStr → Bool
  | .valid _ => true
  | .invalid s => s != ""

/-- One action record of a timer. Only the fields inspected by the kind
resolution of _execute_timer_actions are modelled; the payload trees
(event_data, data, target) are rendered and handed to the external
dispatch, which the embedding abstracts as a single call. -/
structure Action where
  action_type : Option String := none
  event : Option String := none
  action : Option String := none
  service : Option String := none
deriving DecidableEq, Repr

/-- Kind inference of _execute_timer_actions lines 222 to 229: Event kind
if the key event is present, else Service kind if the key action or the
key service is present, else unresolvable. -/
def inferActionType (a : Action) : Option String :=
  if a.event.isSome then some ACTION_EVENT
  else if a.action.isSome || a.service.isSome then some ACTION_SERVICE
  else none

/-- Kind resolution of _execute_timer_actions lines 217 to 229:
action.get with key action_type, where Python truthiness makes an empty
string count as absent, falling back to inference. -/
def resolveActionType (a : Action) : Option String :=
  match a.action_type with
  | some s => if s ≠ "" then some s else inferActionType a
  | none => inferActionType a

/-- Whether the per-action branch of _execute_timer_actions reaches one of
the two executors (lines 231 to 236): a resolved type equal to
ACTION_EVENT or ACTION_SERVICE; anything else is skipped with a warning. -/
def actionDispatchable (a : Action) : Bool :=
  match resolveActionType a with
  | some ty => decide (ty = ACTION_EVENT ∨ ty = ACTION_SERVICE)
  | none => false

/-- _execute_timer_actions (lines 211 to 239): walk the action list in
order; for each dispatchable action invoke the external executor and
record its outcome; an exception from the executor (outcome false) is
caught and logged, and the walk continues with the next action. -/
def executeTimerActions (exec : Action → Bool) : List Action → List (Action × Bool)
  | [] => []
  | a :: rest =>
    if actionDispatchable a then (a, exec a) :: executeTimerActions exec rest
    else executeTimerActions exec rest

/-- One timer record, the value type of the timers dict. A
restart_behavior field absent from storage is read back with default
RESTART_RESUME (line 98), so the field is modelled as total. -/
structure Timer where
  state : String
  expiry : Option TsStr := none
  remaining_duration : Option Int := none
  actions : List Action := []
  restart_behavior : String := RESTART_RESUME
  groups : List String := []
deriving DecidableEq, Repr

/-- The timer collection: the Python dict from names to records, as an
association list in insertion order. -/
abbrev TimerCol := List (String × Timer)

/-- Dict lookup by name. -/
def lookupTimer : TimerCol → String → Option Timer
  | [], _ => none
  | p :: rest, name => if p.1 = name then some p.2 else lookupTimer rest name

/-- Dict assignment to an existing key: rewrite the entry with that key in
place (a map over the list keeping every other entry). -/
def replaceTimer : TimerCol → String → Timer → TimerCol
  | [], _, _ => []
  | p :: rest, name, t =>
    (if p.1 = name then (p.1, t) else p) :: replaceTimer rest name t

/-- Dict deletion by key. -/
def removeName (l : TimerCol) (name : String) : TimerCol :=
  l.filter fun p => decide (p.1 ≠ name)

/-- Dict assignment: replace in place if the key exists, else append. -/
def upsertTimer (l : TimerCol) (name : String) (t : Timer) : TimerCol :=
  if (lookupTimer l name).isSome then replaceTimer l name t
  else l ++ [(name, t)]

/-- Python truthiness of an optional number argument: absent or zero is
falsy. -/
def optIntTruthy : Option Int → Bool
  | none => false
  | some d => d != 0

/-- Python truthiness of an optional timestamp string argument: absent or
empty is falsy. -/
def optTsTruthy : Option TsStr → Bool
  | none => false
  | some ts => ts.truthy

/-- create_timer (lines 301 to 340): build a fresh Active record with
expiry now plus duration and assign it under the resolved name, replacing
any existing timer of that name. The uuid generated when the caller gives
no name, and the wrapping of a single action dict into a one element
list, happen before this point and are modelled by the caller supplying
the resolved name and the normalized action list. The save and the
sensor notification always follow. -/
def create_timer (now : Int) (name : String) (duration : Int)
    (actions : List Action) (restart_behavior : String)
    (groups : List String) (l : TimerCol) : TimerCol :=
  upsertTimer l name
    { state := STATE_ACTIVE
      expiry := some (.valid (now + duration))
      remaining_duration := none
      actions := actions
      restart_behavior := restart_behavior
      groups := groups }

/-- Per-record effect of pause_timer (lines 342 to 365) on the addressed
timer: a timer that is not Active is left untouched (early return with a
warning); otherwise the remaining duration max 0 (expiry - now) is
stored, the state switches to Paused and the expiry is dropped. An Active
record whose expiry is absent or unparsable would raise an uncaught
KeyError or ValueError in Python; those records are unreachable through
the API (see the wellformedness invariant) and are modelled as left
untouched. -/
def pauseUpd (now : Int) (t : Timer) : Timer :=
  if t.state ≠ STATE_ACTIVE then t
  else
    match t.expiry with
    | some ets =>
      match parseTs ets with
      | some e =>
        { t with state := STATE_PAUSED
                 remaining_duration := some (max 0 (e - now))
                 expiry := none }
      | none => t
    | none => t

/-- pause_timer: warn and return if the name is missing, else update the
addressed record in place. -/
def pause_timer (now : Int) (name : String) (l : TimerCol) : TimerCol :=
  match lookupTimer l name with
  | none => l
  | some t => replaceTimer l name (pauseUpd now t)

/-- Per-record effect of resume_timer (lines 367 to 390): a timer that is
not Paused is left untouched; otherwise the expiry becomes now plus the
stored remaining duration (absent read as 0), the state switches to
Active and the remaining duration is dropped. -/
def resumeUpd (now : Int) (t : Timer) : Timer :=
  if t.state ≠ STATE_PAUSED then t
  else
    { t with state := STATE_ACTIVE
             expiry := some (.valid (now + t.remaining_duration.getD 0))
             remaining_duration := none }

/-- resume_timer: warn and return if the name is missing, else update the
addressed record in place. -/
def resume_timer (now : Int) (name : String) (l : TimerCol) : TimerCol :=
  match lookupTimer l name with
  | none => l
  | some t => replaceTimer l name (resumeUpd now t)

/-- cancel_timer (lines 392 to 403): warn and return if the name is
missing, else delete the entry. -/
def cancel_timer (name : String) (l : TimerCol) : TimerCol :=
  match lookupTimer l name with
  | none => l
  | some _ => removeName l name

/-- Per-record effect of the argument handling of extend_timer (lines 420
to 457), applied once the name was found and both arguments passed the
neither-given truthiness check. Returns the updated record and whether an
update was applied (reaching the final save and notification). A truthy
new_expiry is tried first; on parse failure the call is rejected without
looking at add_duration. Otherwise a truthy add_duration is validated to
be positive and added onto the current expiry. An Active record with an
absent expiry would raise an uncaught KeyError in Python at the current
expiry read; it is unreachable through the API and modelled as a
rejection, while an unparsable current expiry is a caught ValueError,
also a rejection. -/
def extendStep (add_duration : Option Int) (new_expiry : Option TsStr)
    (t : Timer) : Timer × Bool :=
  if t.state ≠ STATE_ACTIVE then (t, false)
  else if optTsTruthy new_expiry then
    match new_expiry with
    | some ts =>
      match parseTs ts with
      | some x => ({ t with expiry := some (.valid x) }, true)
      | none => (t, false)
    | none => (t, false)
  else
    match add_duration with
    | some d =>
      if d ≤ 0 then (t, false)
      else
        match t.expiry with
        | some ets =>
          match parseTs ets with
          | some cur => ({ t with expiry := some (.valid (cur + d)) }, true)
          | none => (t, false)
        | none => (t, false)
    | none => (t, false)

/-- Result of extend_timer: the collection plus whether the snapshot was
saved and whether the sensor notification fired. The two flags are only
set together, at the tail of a successful call. -/
structure ExtendResult where
  timers : TimerCol
  saved : Bool
  notified : Bool
deriving DecidableEq, Repr

/-- extend_timer (lines 405 to 460): warn and return if the name is
missing; reject if, by Python truthiness, neither add_duration nor
new_expiry is effectively given; then apply the argument handling of
extendStep to the addressed record, saving and notifying exactly when an
update was applied. -/
def extend_timer (l : TimerCol) (name : String) (add_duration : Option Int)
    (new_expiry : Option TsStr) : ExtendResult :=
  match lookupTimer l name with
  | none => ⟨l, false, false⟩
  | some t =>
    if ¬ optIntTruthy add_duration ∧ ¬ optTsTruthy new_expiry then
      ⟨l, false, false⟩
    else if (extendStep add_duration new_expiry t).2 then
      ⟨replaceTimer l name (extendStep add_duration new_expiry t).1, true, true⟩
    else ⟨l, false, false⟩

/-- Per-record effect of extend_timer on the addressed record, including
the neither-given rejection. -/
def extendUpd (add_duration : Option Int) (new_expiry : Option TsStr)
    (t : Timer) : Timer :=
  if ¬ optIntTruthy add_duration ∧ ¬ optTsTruthy new_expiry then t
  else (extendStep add_duration new_expiry t).1

/-- Classification of one loaded record by _handle_restart_behavior. -/
inductive RecoveryDecision where
  | keep
  | purgeDispatch
  | purgeSilent
deriving DecidableEq, Repr

/-- Per-record decision of _handle_restart_behavior (lines 96 to 149).
A record that is Active with a truthy expiry string has the string
parsed: on failure it is purged silently; on success the restart policy
decides, with is_expired meaning expiry at or before now: resume
dispatches and purges if expired and keeps otherwise, execute always
dispatches and purges, skip purges silently if expired and keeps
otherwise, and an unrecognized policy string matches no branch of the
if chain and keeps the record. A Paused record is kept. Any other record,
including one that is Active with an absent or empty expiry string, falls
to the final else branch and is purged silently as an invalid state. -/
def recoverTimer (now : Int) (t : Timer) : RecoveryDecision :=
  match t.expiry with
  | some ts =>
    if t.state = STATE_ACTIVE ∧ ts.truthy then
      match parseTs ts with
      | none => .purgeSilent
      | some e =>
        if t.restart_behavior = RESTART_RESUME then
          if e ≤ now then .purgeDispatch else .keep
        else if t.restart_behavior = RESTART_EXECUTE then .purgeDispatch
        else if t.restart_behavior = RESTART_SKIP then
          if e ≤ now then .purgeSilent else .keep
        else .keep
    else if t.state = STATE_PAUSED then .keep
    else .purgeSilent
  | none =>
    if t.state = STATE_PAUSED then .keep
    else if t.state = STATE_ACTIVE then .purgeSilent
    else .purgeSilent

/-- The timers_to_remove list built by the pass of
_handle_restart_behavior: the names, in iteration order, of the records
whose decision is not keep. -/
def recoveryRemovals (now : Int) (l : TimerCol) : List String :=
  (l.filter fun p => decide (recoverTimer now p.2 ≠ .keep)).map Prod.fst

/-- The dispatch trace of _handle_restart_behavior: for every record
whose decision is purgeDispatch, in iteration order, the outcomes of
executing its actions. -/
def recoveryDispatches (exec : Action → Bool) (now : Int) (l : TimerCol) :
    List (String × List (Action × Bool)) :=
  (l.filter fun p => decide (recoverTimer now p.2 = .purgeDispatch)).map
    fun p => (p.1, executeTimerActions exec p.2.actions)

/-- _handle_restart_behavior (lines 92 to 157): one pass over the loaded
collection in iteration order, dispatching the actions of every record
whose decision is purgeDispatch and recording the outcomes, then deleting
every name in timers_to_remove. Returns the surviving collection and the
dispatch trace. The single save that follows a non-empty removal list
does not change the collection and is not recorded here. -/
def handleRestartBehavior (exec : Action → Bool) (now : Int) (l : TimerCol) :
    TimerCol × List (String × List (Action × Bool)) :=
  (l.filter fun p => decide (p.1 ∉ recoveryRemovals now l),
    recoveryDispatches exec now l)

/-- Classification of one record by a tick of _async_check_timers. -/
inductive TickClass where
  | keep
  | expired
  | invalid
deriving DecidableEq, Repr

/-- Per-record classification of _async_check_timers (lines 177 to 197).
Only a record that is Active with a truthy expiry string is examined: an
unparsable string marks it invalid, a parsed instant at or before now
marks it expired (its actions are dispatched), and a later instant keeps
it. Every other record, including one Active with an absent or empty
expiry string and one with an unrecognized state, is left untouched by
the tick. -/
def tickClassify (now : Int) (t : Timer) : TickClass :=
  match t.expiry with
  | some ts =>
    if t.state = STATE_ACTIVE ∧ ts.truthy then
      match parseTs ts with
      | none => .invalid
      | some e => if e ≤ now then .expired else .keep
    else .keep
  | none => .keep

/-- Result of one tick: the collection, the dispatch trace of the expired
records, the two name lists built during the scan, and how often the save
and the sensor notification ran. -/
structure TickResult where
  timers : TimerCol
  dispatches : List (String × List (Action × Bool))
  expired : List String
  invalid : List String
  saveCount : Nat
  notifyCount : Nat
deriving DecidableEq, Repr

/-- The expired_timers name list built during the scan of
_async_check_timers, in iteration order. -/
def tickExpired (now : Int) (l : TimerCol) : List String :=
  (l.filter fun p => decide (tickClassify now p.2 = .expired)).map Prod.fst

/-- The invalid_timers name list built during the scan of
_async_check_timers, in iteration order. -/
def tickInvalid (now : Int) (l : TimerCol) : List String :=
  (l.filter fun p => decide (tickClassify now p.2 = .invalid)).map Prod.fst

/-- The dispatch trace of one tick: for every expired record, in
iteration order, the outcomes of executing its actions. -/
def tickDispatches (exec : Action → Bool) (now : Int) (l : TimerCol) :
    List (String × List (Action × Bool)) :=
  (l.filter fun p => decide (tickClassify now p.2 = .expired)).map
    fun p => (p.1, executeTimerActions exec p.2.actions)

/-- _async_check_timers (lines 172 to 209): scan the collection in
iteration order, dispatching the actions of every expired record and
collecting the expired and invalid name lists, then delete every name in
expired_timers plus invalid_timers; if anything was collected, save once
and notify once. -/
def asyncCheckTimers (exec : Action → Bool) (now : Int) (l : TimerCol) :
    TickResult :=
  { timers := l.filter fun p =>
      decide (p.1 ∉ tickExpired now l ++ tickInvalid now l)
    dispatches := tickDispatches exec now l
    expired := tickExpired now l
    invalid := tickInvalid now l
    saveCount := if tickExpired now l ++ tickInvalid now l = [] then 0 else 1
    notifyCount := if tickExpired now l ++ tickInvalid now l = [] then 0 else 1 }

/-- Fan-out shared by pause_group, resume_group and extend_group (lines
462 to 480 and 495 to 508): iterate over the entries of the collection as
it stood at entry (the iteration order of the live dict, whose key set
these operations never change) and apply the single timer operation to
every entry whose groups list contains the group. -/
def fanoutGroup (f : String → TimerCol → TimerCol) (group : String)
    (l : TimerCol) : TimerCol :=
  l.foldl (fun acc p => if group ∈ p.2.groups then f p.1 acc else acc) l

/-- pause_group (lines 462 to 470). -/
def pause_group (now : Int) (group : String) (l : TimerCol) : TimerCol :=
  fanoutGroup (pause_timer now) group l

/-- resume_group (lines 472 to 480). -/
def resume_group (now : Int) (group : String) (l : TimerCol) : TimerCol :=
  fanoutGroup (resume_timer now) group l

/-- extend_group (lines 495 to 508). -/
def extend_group (add_duration : Option Int) (new_expiry : Option TsStr)
    (group : String) (l : TimerCol) : TimerCol :=
  fanoutGroup (fun n acc => (extend_timer acc n add_duration new_expiry).timers)
    group l

/-- cancel_group (lines 482 to 493): snapshot the names of the members
before mutating, then cancel each snapshotted name in turn. -/
def cancel_group (group : String) (l : TimerCol) : TimerCol :=
  let toCancel := (l.filter fun p => decide (group ∈ p.2.groups)).map Prod.fst
  toCancel.foldl (fun acc n => cancel_timer n acc) l

/-- One call of the single timer Lifecycle API, carrying its resolved
arguments. -/
inductive Op where
  | create (name : String) (duration : Int) (actions : List Action)
      (restart_behavior : String) (groups : List String)
  | pause (name : String)
  | resume (name : String)
  | cancel (name : String)
  | extend (name : String) (add_duration : Option Int) (new_expiry : Option TsStr)
deriving DecidableEq, Repr

/-- Effect of one Lifecycle API call issued at instant now. -/
def applyOp (now : Int) (op : Op) (l : TimerCol) : TimerCol :=
  match op with
  | .create name duration actions rb groups =>
    create_timer now name duration actions rb groups l
  | .pause name => pause_timer now name l
  | .resume name => resume_timer now name l
  | .cancel name => cancel_timer name l
  | .extend name ad ne => (extend_timer l name ad ne).timers

/-- Effect of a sequence of Lifecycle API calls, each tagged with the
instant at which it was issued. -/
def applyOps (ops : List (Int × Op)) (l : TimerCol) : TimerCol :=
  ops.foldl (fun acc p => applyOp p.1 p.2 acc) l

/-! ### Helper lemmas about the collection primitives -/

theorem lookupTimer_mem {l : TimerCol} {n : String} {t : Timer}
    (h : lookupTimer l n = some t) : (n, t) ∈ l := by
  induction l with
  | nil => simp [lookupTimer] at h
  | cons p rest ih =>
    rw [lookupTimer] at h
    split at h
    · rename_i hn
      injection h with hv
      subst hn
      subst hv
      exact List.mem_cons_self p rest
    · exact List.mem_cons_of_mem _ (ih h)

theorem mem_lookupTimer {l : TimerCol} (hnd : (l.map Prod.fst).Nodup)
    {n : String} {t : Timer} (h : (n, t) ∈ l) : lookupTimer l n = some t := by
  induction l with
  | nil => cases h
  | cons p rest ih =>
    rw [List.map_cons, List.nodup_cons] at hnd
    rw [lookupTimer]
    rcases List.mem_cons.mp h with heq | hmem
    · rw [if_pos (congrArg Prod.fst heq).symm]
      rw [← heq]
    · have hne : p.1 ≠ n := by
        intro hc
        exact hnd.1 (hc ▸ List.mem_map_of_mem Prod.fst hmem)
      rw [if_neg hne]
      exact ih hnd.2 hmem

theorem lookupTimer_eq_none {l : TimerCol} {n : String} :
    lookupTimer l n = none ↔ n ∉ l.map Prod.fst := by
  induction l with
  | nil => simp [lookupTimer]
  | cons p rest ih =>
    rw [lookupTimer]
    by_cases hn : p.1 = n
    · simp [hn]
    · simp [hn, ih, Ne.symm hn]

theorem nodupKeys_inj {l : TimerCol} (hnd : (l.map Prod.fst).Nodup)
    {p q : String × Timer} (hp : p ∈ l) (hq : q ∈ l) (h : p.1 = q.1) : p = q := by
  induction l with
  | nil => cases hp
  | cons a rest ih =>
    rw [List.map_cons, List.nodup_cons] at hnd
    rcases List.mem_cons.mp hp with rfl | hp' <;>
      rcases List.mem_cons.mp hq with rfl | hq'
    · rfl
    · exact absurd (h ▸ List.mem_map_of_mem Prod.fst hq') hnd.1
    · exact absurd (h ▸ List.mem_map_of_mem Prod.fst hp') hnd.1
    · exact ih hnd.2 hp' hq'

theorem lookupTimer_replaceTimer_self {l : TimerCol} {n : String} {t t' : Timer}
    (h : lookupTimer l n = some t) :
    lookupTimer (replaceTimer l n t') n = some t' := by
  induction l with
  | nil => simp [lookupTimer] at h
  | cons p rest ih =>
    rw [lookupTimer] at h
    rw [replaceTimer]
    split at h
    · rename_i hn
      rw [if_pos hn, lookupTimer, if_pos hn]
    · rename_i hn
      rw [if_neg hn, lookupTimer, if_neg hn]
      exact ih h

theorem lookupTimer_replaceTimer_ne {l : TimerCol} {n m : String} {t' : Timer}
    (h : m ≠ n) :
    lookupTimer (replaceTimer l n t') m = lookupTimer l m := by
  induction l with
  | nil => rfl
  | cons p rest ih =>
    rw [replaceTimer, lookupTimer, lookupTimer]
    by_cases hn : p.1 = n
    · rw [if_pos hn]
      rw [if_neg (by simpa [hn] using Ne.symm h), if_neg (hn ▸ Ne.symm h)]
      exact ih
    · rw [if_neg hn]
      by_cases hm : p.1 = m
      · rw [if_pos hm, if_pos hm]
      · rw [if_neg hm, if_neg hm]
        exact ih

theorem mem_replaceTimer {l : TimerCol} {n : String} {t' : Timer}
    {q : String × Timer} (hq : q ∈ replaceTimer l n t') :
    ∃ p ∈ l, q = (if p.1 = n then (p.1, t') else p) := by
  induction l with
  | nil => cases hq
  | cons p rest ih =>
    rw [replaceTimer] at hq
    rcases List.mem_cons.mp hq with rfl | hmem
    · exact ⟨p, List.mem_cons_self p rest, rfl⟩
    · obtain ⟨p', hp', hq'⟩ := ih hmem
      exact ⟨p', List.mem_cons_of_mem _ hp', hq'⟩

/-! ### Correspondence lemmas for Restart Recovery -/

theorem handleRestart_mem_keep {exec : Action → Bool} {now : Int} {l : TimerCol}
    (hnd : (l.map Prod.fst).Nodup) {n : String} {t : Timer}
    (hmem : (n, t) ∈ l) (hk : recoverTimer now t = .keep) :
    (n, t) ∈ (handleRestartBehavior exec now l).1 := by
  refine List.mem_filter.mpr ⟨hmem, ?_⟩
  simp only [decide_eq_true_eq]
  intro hc
  obtain ⟨q, hqf, hq1⟩ := List.mem_map.mp hc
  have hql := (List.mem_filter.mp hqf).1
  have hqd : recoverTimer now q.2 ≠ .keep := by
    simpa using (List.mem_filter.mp hqf).2
  rw [nodupKeys_inj hnd hql hmem hq1] at hqd
  exact hqd hk

theorem handleRestart_lookup_none {exec : Action → Bool} {now : Int}
    {l : TimerCol} {n : String} {t : Timer} (hmem : (n, t) ∈ l)
    (hne : recoverTimer now t ≠ .keep) :
    lookupTimer (handleRestartBehavior exec now l).1 n = none := by
  rw [lookupTimer_eq_none]
  intro hc
  obtain ⟨q, hqf, hq1⟩ := List.mem_map.mp hc
  have hql := List.mem_filter.mp hqf
  have hnotin : q.1 ∉ recoveryRemovals now l := by simpa using hql.2
  apply hnotin
  rw [hq1]
  exact List.mem_map.mpr ⟨(n, t), List.mem_filter.mpr ⟨hmem, by simpa using hne⟩, rfl⟩

theorem handleRestart_mem_dispatch {exec : Action → Bool} {now : Int}
    {l : TimerCol} {n : String} {t : Timer} (hmem : (n, t) ∈ l)
    (hd : recoverTimer now t = .purgeDispatch) :
    (n, executeTimerActions exec t.actions) ∈ (handleRestartBehavior exec now l).2 :=
  List.mem_map.mpr ⟨(n, t), List.mem_filter.mpr ⟨hmem, by simpa using hd⟩, rfl⟩

theorem handleRestart_not_dispatch {exec : Action → Bool} {now : Int}
    {l : TimerCol} (hnd : (l.map Prod.fst).Nodup) {n : String} {t : Timer}
    (hmem : (n, t) ∈ l) (hd : recoverTimer now t ≠ .purgeDispatch) :
    n ∉ ((handleRestartBehavior exec now l).2).map Prod.fst := by
  intro hc
  obtain ⟨q, hq, hq1⟩ := List.mem_map.mp hc
  obtain ⟨r, hrf, hrq⟩ := List.mem_map.mp hq
  have hrl := List.mem_filter.mp hrf
  have hr1 : r.1 = n := by rw [← hq1, ← hrq]
  rw [nodupKeys_inj hnd hrl.1 hmem hr1] at hrl
  exact hd (by simpa using hrl.2)

theorem handleRestart_survivor_keep {exec : Action → Bool} {now : Int}
    {l : TimerCol} {p : String × Timer}
    (hp : p ∈ (handleRestartBehavior exec now l).1) :
    recoverTimer now p.2 = .keep := by
  have h := List.mem_filter.mp hp
  have hnot : p.1 ∉ recoveryRemovals now l := by simpa using h.2
  by_contra hne
  exact hnot (List.mem_map.mpr ⟨p, List.mem_filter.mpr ⟨h.1, by simpa using hne⟩, rfl⟩)

theorem recoverTimer_active_valid (now : Int) {e : Int} {t : Timer}
    (hstate : t.state = STATE_ACTIVE) (hexp : t.expiry = some (.valid e)) :
    recoverTimer now t =
      if t.restart_behavior = RESTART_RESUME then
        (if e ≤ now then .purgeDispatch else .keep)
      else if t.restart_behavior = RESTART_EXECUTE then .purgeDispatch
      else if t.restart_behavior = RESTART_SKIP then
        (if e ≤ now then .purgeSilent else .keep)
      else .keep := by
  simp [recoverTimer, hexp, hstate, parseTs, TsStr.truthy]

theorem paused_ne_active : STATE_PAUSED ≠ STATE_ACTIVE := by decide

theorem recoverTimer_paused (now : Int) {t : Timer}
    (h : t.state = STATE_PAUSED) : recoverTimer now t = .keep := by
  cases hexp : t.expiry with
  | none => simp [recoverTimer, hexp, h]
  | some ts => simp [recoverTimer, hexp, h, paused_ne_active]

theorem recoverTimer_other (now : Int) {t : Timer}
    (h1 : t.state ≠ STATE_ACTIVE) (h2 : t.state ≠ STATE_PAUSED) :
    recoverTimer now t = .purgeSilent := by
  cases hexp : t.expiry with
  | none => simp [recoverTimer, hexp, h1, h2]
  | some ts => simp [recoverTimer, hexp, h1, h2]

/-- C1: Restart Recovery, applied to each loaded timer that is Active
with a parsable expiry, given now: under policy Resume, if expiry is at
or before now its actions are dispatched and the timer is purged,
otherwise it is kept unchanged; under policy Execute, its actions are
dispatched and it is purged regardless of expiry; under policy Skip, if
expiry is at or before now it is purged without dispatching, otherwise
kept unchanged; every Paused timer is kept unchanged, and a timer with
an unrecognized state is purged without dispatching. -/
theorem C1_restart_recovery (exec : Action → Bool) (now : Int)
    (l : TimerCol) (hnd : (l.map Prod.fst).Nodup)
    (n : String) (t : Timer) (hmem : (n, t) ∈ l) :
    (∀ e : Int, t.state = STATE_ACTIVE → t.expiry = some (.valid e) →
      ((t.restart_behavior = RESTART_RESUME →
          (e ≤ now →
            (n, executeTimerActions exec t.actions) ∈
              (handleRestartBehavior exec now l).2 ∧
            lookupTimer (handleRestartBehavior exec now l).1 n = none) ∧
          (now < e → (n, t) ∈ (handleRestartBehavior exec now l).1)) ∧
       (t.restart_behavior = RESTART_EXECUTE →
          (n, executeTimerActions exec t.actions) ∈
            (handleRestartBehavior exec now l).2 ∧
          lookupTimer (handleRestartBehavior exec now l).1 n = none) ∧
       (t.restart_behavior = RESTART_SKIP →
          (e ≤ now →
            lookupTimer (handleRestartBehavior exec now l).1 n = none ∧
            n ∉ ((handleRestartBehavior exec now l).2).map Prod.fst) ∧
          (now < e → (n, t) ∈ (handleRestartBehavior exec now l).1)))) ∧
    (t.state = STATE_PAUSED →
      (n, t) ∈ (handleRestartBehavior exec now l).1 ∧
      n ∉ ((handleRestartBehavior exec now l).2).map Prod.fst) ∧
    (t.state ≠ STATE_ACTIVE → t.state ≠ STATE_PAUSED →
      lookupTimer (handleRestartBehavior exec now l).1 n = none ∧
      n ∉ ((handleRestartBehavior exec now l).2).map Prod.fst) := by
  refine ⟨?_, ?_, ?_⟩
  · intro e hstate hexp
    have hdec := recoverTimer_active_valid now hstate hexp
    refine ⟨?_, ?_, ?_⟩
    · intro hb
      rw [hb, if_pos rfl] at hdec
      constructor
      · intro he
        rw [if_pos he] at hdec
        exact ⟨handleRestart_mem_dispatch hmem hdec,
          handleRestart_lookup_none hmem (by rw [hdec]; exact (by decide))⟩
      · intro he
        rw [if_neg (by omega)] at hdec
        exact handleRestart_mem_keep hnd hmem hdec
    · intro hb
      rw [hb, if_neg (by decide), if_pos rfl] at hdec
      exact ⟨handleRestart_mem_dispatch hmem hdec,
        handleRestart_lookup_none hmem (by rw [hdec]; exact (by decide))⟩
    · intro hb
      rw [hb, if_neg (by decide), if_neg (by decide), if_pos rfl] at hdec
      constructor
      · intro he
        rw [if_pos he] at hdec
        exact ⟨handleRestart_lookup_none hmem (by rw [hdec]; exact (by decide)),
          handleRestart_not_dispatch hnd hmem (by rw [hdec]; exact (by decide))⟩
      · intro he
        rw [if_neg (by omega)] at hdec
        exact handleRestart_mem_keep hnd hmem hdec
  · intro hp
    have hdec := recoverTimer_paused now hp
    exact ⟨handleRestart_mem_keep hnd hmem hdec,
      handleRestart_not_dispatch hnd hmem (by rw [hdec]; exact (by decide))⟩
  · intro h1 h2
    have hdec := recoverTimer_other now h1 h2
    exact ⟨handleRestart_lookup_none hmem (by rw [hdec]; exact (by decide)),
      handleRestart_not_dispatch hnd hmem (by rw [hdec]; exact (by decide))⟩

/-- C2: Restart Recovery is idempotent: for every loaded snapshot and
fixed now, running the recovery pass twice produces the same surviving
timer collection as running it once, and no timer has its actions
dispatched more than once across the two runs. -/
theorem C2_recovery_idempotent (exec : Action → Bool) (now : Int)
    (l : TimerCol) (hnd : (l.map Prod.fst).Nodup) :
    (handleRestartBehavior exec now (handleRestartBehavior exec now l).1).1 =
      (handleRestartBehavior exec now l).1 ∧
    (handleRestartBehavior exec now (handleRestartBehavior exec now l).1).2 = [] ∧
    ∀ n : String,
      (((handleRestartBehavior exec now l).2 ++
        (handleRestartBehavior exec now (handleRestartBehavior exec now l).1).2).map
          Prod.fst).count n ≤ 1 := by
  have hall : ∀ p ∈ (handleRestartBehavior exec now l).1,
      recoverTimer now p.2 = .keep := fun p hp => handleRestart_survivor_keep hp
  have hfilter : ((handleRestartBehavior exec now l).1).filter
      (fun p => decide (recoverTimer now p.2 ≠ .keep)) = [] := by
    rw [List.filter_eq_nil_iff]
    intro p hp
    simp [hall p hp]
  have hrem : recoveryRemovals now (handleRestartBehavior exec now l).1 = [] := by
    rw [recoveryRemovals, hfilter, List.map_nil]
  have hfilter2 : ((handleRestartBehavior exec now l).1).filter
      (fun p => decide (recoverTimer now p.2 = .purgeDispatch)) = [] := by
    rw [List.filter_eq_nil_iff]
    intro p hp
    simp [hall p hp]
  have h2 : (handleRestartBehavior exec now (handleRestartBehavior exec now l).1).2 = [] := by
    show recoveryDispatches exec now (handleRestartBehavior exec now l).1 = []
    rw [recoveryDispatches, hfilter2, List.map_nil]
  refine ⟨?_, h2, ?_⟩
  · show ((handleRestartBehavior exec now l).1).filter _ =
      (handleRestartBehavior exec now l).1
    rw [hrem]
    rw [List.filter_eq_self]
    intro p _
    simp
  · intro n
    rw [h2, List.append_nil]
    have hsub : (((handleRestartBehavior exec now l).2).map Prod.fst).Sublist
        (l.map Prod.fst) := by
      show ((recoveryDispatches exec now l).map Prod.fst).Sublist (l.map Prod.fst)
      rw [recoveryDispatches, List.map_map]
      exact (List.filter_sublist l).map Prod.fst
    exact List.nodup_iff_count_le_one.mp (hsub.nodup hnd) n

/-- Concrete one-timer collection used to instantiate the recovery
theorems. -/
def c1T : Timer :=
  { state := STATE_ACTIVE, expiry := some (.valid 0),
    restart_behavior := RESTART_RESUME }

def c1L : TimerCol := [("a", c1T)]

theorem C1_restart_recovery_witness :
    ((c1L.map Prod.fst).Nodup ∧ ("a", c1T) ∈ c1L ∧ c1T.state = STATE_ACTIVE ∧
      c1T.expiry = some (.valid 0) ∧ c1T.restart_behavior = RESTART_RESUME ∧
      (0 : Int) ≤ 5) ∧
    ("a", executeTimerActions (fun _ => true) c1T.actions) ∈
      (handleRestartBehavior (fun _ => true) 5 c1L).2 ∧
    lookupTimer (handleRestartBehavior (fun _ => true) 5 c1L).1 "a" = none :=
  ⟨by decide,
    (((C1_restart_recovery (fun _ => true) 5 c1L (by decide) "a" c1T
        (by decide)).1 0 (by decide) (by decide)).1 (by decide)).1 (by decide)⟩

theorem C2_recovery_idempotent_witness :
    (c1L.map Prod.fst).Nodup ∧
    (handleRestartBehavior (fun _ => true) 5
        (handleRestartBehavior (fun _ => true) 5 c1L).1).1 =
      (handleRestartBehavior (fun _ => true) 5 c1L).1 ∧
    (handleRestartBehavior (fun _ => true) 5
        (handleRestartBehavior (fun _ => true) 5 c1L).1).2 = [] :=
  ⟨by decide,
    (C2_recovery_idempotent (fun _ => true) 5 c1L (by decide)).1,
    (C2_recovery_idempotent (fun _ => true) 5 c1L (by decide)).2.1⟩

/-! ### Correspondence lemmas for the Scheduler Loop tick -/

theorem tick_lookup_none {exec : Action → Bool} {now : Int} {l : TimerCol}
    {n : String} {t : Timer} (hmem : (n, t) ∈ l)
    (hne : tickClassify now t ≠ .keep) :
    lookupTimer (asyncCheckTimers exec now l).timers n = none := by
  rw [lookupTimer_eq_none]
  intro hc
  obtain ⟨q, hqf, hq1⟩ := List.mem_map.mp hc
  have hql := List.mem_filter.mp hqf
  have hnotin : q.1 ∉ tickExpired now l ++ tickInvalid now l := by simpa using hql.2
  apply hnotin
  rw [hq1, List.mem_append]
  cases hcl : tickClassify now t with
  | keep => exact absurd hcl hne
  | expired =>
    exact Or.inl (List.mem_map.mpr
      ⟨(n, t), List.mem_filter.mpr ⟨hmem, by simpa using hcl⟩, rfl⟩)
  | invalid =>
    exact Or.inr (List.mem_map.mpr
      ⟨(n, t), List.mem_filter.mpr ⟨hmem, by simpa using hcl⟩, rfl⟩)

theorem tick_mem_keep {exec : Action → Bool} {now : Int} {l : TimerCol}
    (hnd : (l.map Prod.fst).Nodup) {n : String} {t : Timer}
    (hmem : (n, t) ∈ l) (hk : tickClassify now t = .keep) :
    (n, t) ∈ (asyncCheckTimers exec now l).timers := by
  refine List.mem_filter.mpr ⟨hmem, ?_⟩
  simp only [decide_eq_true_eq, List.mem_append]
  rintro (hc | hc) <;>
  · obtain ⟨q, hqf, hq1⟩ := List.mem_map.mp hc
    have hql := (List.mem_filter.mp hqf).1
    have hqd := (List.mem_filter.mp hqf).2
    rw [nodupKeys_inj hnd hql hmem hq1] at hqd
    simp [hk] at hqd

theorem tick_mem_dispatch {exec : Action → Bool} {now : Int} {l : TimerCol}
    {n : String} {t : Timer} (hmem : (n, t) ∈ l)
    (hd : tickClassify now t = .expired) :
    (n, executeTimerActions exec t.actions) ∈ (asyncCheckTimers exec now l).dispatches :=
  List.mem_map.mpr ⟨(n, t), List.mem_filter.mpr ⟨hmem, by simpa using hd⟩, rfl⟩

theorem tick_not_dispatch {exec : Action → Bool} {now : Int} {l : TimerCol}
    (hnd : (l.map Prod.fst).Nodup) {n : String} {t : Timer}
    (hmem : (n, t) ∈ l) (hd : tickClassify now t ≠ .expired) :
    n ∉ ((asyncCheckTimers exec now l).dispatches).map Prod.fst := by
  intro hc
  obtain ⟨q, hq, hq1⟩ := List.mem_map.mp hc
  obtain ⟨r, hrf, hrq⟩ := List.mem_map.mp hq
  have hrl := List.mem_filter.mp hrf
  have hr1 : r.1 = n := by rw [← hq1, ← hrq]
  rw [nodupKeys_inj hnd hrl.1 hmem hr1] at hrl
  exact hd (by simpa using hrl.2)

theorem tick_dispatch_count {exec : Action → Bool} {now : Int} {l : TimerCol}
    (hnd : (l.map Prod.fst).Nodup) {n : String} {t : Timer}
    (hmem : (n, t) ∈ l) (hd : tickClassify now t = .expired) :
    (((asyncCheckTimers exec now l).dispatches).map Prod.fst).count n = 1 := by
  have hsub : (((asyncCheckTimers exec now l).dispatches).map Prod.fst).Sublist
      (l.map Prod.fst) := by
    show ((tickDispatches exec now l).map Prod.fst).Sublist (l.map Prod.fst)
    rw [tickDispatches, List.map_map]
    exact (List.filter_sublist l).map Prod.fst
  refine List.count_eq_one_of_mem (hsub.nodup hnd) ?_
  exact List.mem_map.mpr ⟨(n, executeTimerActions exec t.actions),
    tick_mem_dispatch hmem hd, rfl⟩

theorem tickClassify_active_valid {now e : Int} {t : Timer}
    (hstate : t.state = STATE_ACTIVE) (hexp : t.expiry = some (.valid e)) :
    tickClassify now t = if e ≤ now then .expired else .keep := by
  simp [tickClassify, hexp, hstate, parseTs, TsStr.truthy]

theorem tickClassify_active_invalid {now : Int} {t : Timer} {s : String}
    (hstate : t.state = STATE_ACTIVE) (hexp : t.expiry = some (.invalid s))
    (hs : s ≠ "") : tickClassify now t = .invalid := by
  simp [tickClassify, hexp, hstate, parseTs, TsStr.truthy, hs]

theorem tickClassify_keep_cases (now : Int) {t : Timer}
    (h : t.state ≠ STATE_ACTIVE ∨ t.expiry = none ∨
      t.expiry = some (.invalid "") ∨
      ∃ e : Int, t.expiry = some (.valid e) ∧ now < e) :
    tickClassify now t = .keep := by
  rcases h with h | h | h | ⟨e, hexp, he⟩
  · cases hexp : t.expiry with
    | none => simp [tickClassify, hexp]
    | some ts => simp [tickClassify, hexp, h]
  · simp [tickClassify, h]
  · simp [tickClassify, h, TsStr.truthy]
  · by_cases hstate : t.state = STATE_ACTIVE
    · rw [tickClassify_active_valid hstate hexp, if_neg (by omega)]
    · simp [tickClassify, hexp, hstate]

/-- An Active record whose stored expiry is the empty string: the empty
string does not parse, yet it is falsy in Python, so the tick guard
state equal active and truthy expiry skips the record entirely. -/
def c3T : Timer := { state := STATE_ACTIVE, expiry := some (.invalid "") }

def c3L : TimerCol := [("t", c3T)]

/-- C3 counterexample: the record of c3L is Active and its expiry fails
to parse, yet one tick removes nothing, dispatches nothing, saves nothing
and notifies nothing; the claim says such a timer is removed. -/
theorem C3_tick_counterexample :
    c3T.state = STATE_ACTIVE ∧
    c3T.expiry = some (.invalid "") ∧
    parseTs (.invalid "") = none ∧
    (asyncCheckTimers (fun _ => true) 0 c3L).timers = c3L ∧
    lookupTimer (asyncCheckTimers (fun _ => true) 0 c3L).timers "t" = some c3T ∧
    (asyncCheckTimers (fun _ => true) 0 c3L).saveCount = 0 ∧
    (asyncCheckTimers (fun _ => true) 0 c3L).notifyCount = 0 := by
  decide

/-- C3 amended: one scheduler tick at time now: every Active timer whose
expiry parses and is at or before now has its actions dispatched exactly
once and is removed from the collection; every Active timer whose expiry
is a non-empty string that fails to parse is removed without
dispatching; every other timer, among them an Active timer whose expiry
field is absent or the empty string, is left unchanged; if at least one
timer was removed the collection is persisted once and exactly one
collection-changed notification is emitted, and if none was removed
there is no persist and no notification. -/
theorem C3_tick_amended (exec : Action → Bool) (now : Int) (l : TimerCol)
    (hnd : (l.map Prod.fst).Nodup) (n : String) (t : Timer)
    (hmem : (n, t) ∈ l) :
    (∀ e : Int, t.state = STATE_ACTIVE → t.expiry = some (.valid e) →
      e ≤ now →
      (n, executeTimerActions exec t.actions) ∈
        (asyncCheckTimers exec now l).dispatches ∧
      (((asyncCheckTimers exec now l).dispatches).map Prod.fst).count n = 1 ∧
      lookupTimer (asyncCheckTimers exec now l).timers n = none) ∧
    (∀ s : String, t.state = STATE_ACTIVE → t.expiry = some (.invalid s) →
      s ≠ "" →
      lookupTimer (asyncCheckTimers exec now l).timers n = none ∧
      n ∉ ((asyncCheckTimers exec now l).dispatches).map Prod.fst) ∧
    ((t.state ≠ STATE_ACTIVE ∨ t.expiry = none ∨
        t.expiry = some (.invalid "") ∨
        (∃ e : Int, t.expiry = some (.valid e) ∧ now < e)) →
      (n, t) ∈ (asyncCheckTimers exec now l).timers ∧
      n ∉ ((asyncCheckTimers exec now l).dispatches).map Prod.fst) ∧
    ((asyncCheckTimers exec now l).expired ++ (asyncCheckTimers exec now l).invalid = [] →
      (asyncCheckTimers exec now l).timers = l ∧
      (asyncCheckTimers exec now l).saveCount = 0 ∧
      (asyncCheckTimers exec now l).notifyCount = 0) ∧
    ((asyncCheckTimers exec now l).expired ++ (asyncCheckTimers exec now l).invalid ≠ [] →
      (asyncCheckTimers exec now l).saveCount = 1 ∧
      (asyncCheckTimers exec now l).notifyCount = 1) := by
  refine ⟨?_, ?_, ?_, ?_, ?_⟩
  · intro e hstate hexp he
    have hcl : tickClassify now t = .expired := by
      rw [tickClassify_active_valid hstate hexp, if_pos he]
    exact ⟨tick_mem_dispatch hmem hcl, tick_dispatch_count hnd hmem hcl,
      tick_lookup_none hmem (by rw [hcl]; exact (by decide))⟩
  · intro s hstate hexp hs
    have hcl : tickClassify now t = .invalid :=
      tickClassify_active_invalid hstate hexp hs
    exact ⟨tick_lookup_none hmem (by rw [hcl]; exact (by decide)),
      tick_not_dispatch hnd hmem (by rw [hcl]; exact (by decide))⟩
  · intro h
    have hcl := tickClassify_keep_cases now h
    exact ⟨tick_mem_keep hnd hmem hcl,
      tick_not_dispatch hnd hmem (by rw [hcl]; exact (by decide))⟩
  · intro h
    have h' : tickExpired now l ++ tickInvalid now l = [] := h
    refine ⟨?_, ?_, ?_⟩
    · show l.filter _ = l
      rw [List.filter_eq_self]
      intro p _
      simp only [decide_eq_true_eq]
      rw [h']
      exact List.not_mem_nil p.1
    · show (if tickExpired now l ++ tickInvalid now l = [] then 0 else 1) = 0
      rw [if_pos h']
    · show (if tickExpired now l ++ tickInvalid now l = [] then 0 else 1) = 0
      rw [if_pos h']
  · intro h
    have h' : tickExpired now l ++ tickInvalid now l ≠ [] := h
    constructor
    · show (if tickExpired now l ++ tickInvalid now l = [] then 0 else 1) = 1
      rw [if_neg h']
    · show (if tickExpired now l ++ tickInvalid now l = [] then 0 else 1) = 1
      rw [if_neg h']

/-- Concrete two-timer collection for the tick theorem: one Active timer
due at instant 0 with a single event action, one Paused timer. -/
def c3wT : Timer :=
  { state := STATE_ACTIVE, expiry := some (.valid 0),
    actions := [{ event := some "evt.fired" }] }

def c3wP : Timer := { state := STATE_PAUSED, remaining_duration := some 3 }

def c3wL : TimerCol := [("T1", c3wT), ("p", c3wP)]

theorem C3_tick_amended_witness :
    ((c3wL.map Prod.fst).Nodup ∧ ("T1", c3wT) ∈ c3wL ∧
      c3wT.state = STATE_ACTIVE ∧ c3wT.expiry = some (.valid 0) ∧
      (0 : Int) ≤ 5) ∧
    ("T1", executeTimerActions (fun _ => true) c3wT.actions) ∈
      (asyncCheckTimers (fun _ => true) 5 c3wL).dispatches ∧
    (((asyncCheckTimers (fun _ => true) 5 c3wL).dispatches).map Prod.fst).count "T1" = 1 ∧
    lookupTimer (asyncCheckTimers (fun _ => true) 5 c3wL).timers "T1" = none :=
  ⟨by decide,
    (C3_tick_amended (fun _ => true) 5 c3wL (by decide) "T1" c3wT (by decide)).1
      0 (by decide) (by decide) (by decide)⟩

/-! ### The extend operation -/

/-- C4: for every existing Active timer with expiry E and every positive
add_duration d, extend with add_duration d and no new_expiry sets the
expiry of the timer to exactly E plus d, relative to the prior expiry and
not to the current time, then persists and notifies. -/
theorem C4_extend_add_duration (l : TimerCol) (name : String) (t : Timer)
    (E d : Int) (hlk : lookupTimer l name = some t)
    (hact : t.state = STATE_ACTIVE) (hexp : t.expiry = some (.valid E))
    (hd : 0 < d) :
    extend_timer l name (some d) none =
      ⟨replaceTimer l name { t with expiry := some (.valid (E + d)) }, true, true⟩ ∧
    lookupTimer (extend_timer l name (some d) none).timers name =
      some { t with expiry := some (.valid (E + d)) } := by
  have hd0 : ¬ d ≤ 0 := by omega
  have hstep : extendStep (some d) none t =
      ({ t with expiry := some (.valid (E + d)) }, true) := by
    simp [extendStep, hact, hexp, optTsTruthy, parseTs, hd0]
  have htr : optIntTruthy (some d) = true := by
    simp only [optIntTruthy, bne_iff_ne, ne_eq, decide_eq_true_eq]
    omega
  have heq : extend_timer l name (some d) none =
      ⟨replaceTimer l name { t with expiry := some (.valid (E + d)) }, true, true⟩ := by
    simp [extend_timer, hlk, htr, hstep]
  refine ⟨heq, ?_⟩
  rw [heq]
  exact lookupTimer_replaceTimer_self hlk

def c4T : Timer := { state := STATE_ACTIVE, expiry := some (.valid 100) }

def c4L : TimerCol := [("x", c4T)]

theorem C4_extend_add_duration_witness :
    (lookupTimer c4L "x" = some c4T ∧ c4T.state = STATE_ACTIVE ∧
      c4T.expiry = some (.valid 100) ∧ (0 : Int) < 5) ∧
    lookupTimer (extend_timer c4L "x" (some 5) none).timers "x" =
      some { c4T with expiry := some (.valid (100 + 5)) } :=
  ⟨⟨by decide, by decide, by decide, by decide⟩,
    (C4_extend_add_duration c4L "x" c4T 100 5 (by decide) (by decide)
      (by decide) (by decide)).2⟩

/-- C10: when extend is called on an existing Active timer with both
arguments supplied and the new_expiry value parses, new_expiry takes
precedence: the expiry is set absolutely to new_expiry and add_duration
is ignored entirely, neither validated nor added, for every possible
add_duration value. -/
theorem C10_extend_new_expiry_precedence (l : TimerCol) (name : String)
    (t : Timer) (T : Int) (ad : Option Int)
    (hlk : lookupTimer l name = some t) (hact : t.state = STATE_ACTIVE) :
    extend_timer l name ad (some (.valid T)) =
      ⟨replaceTimer l name { t with expiry := some (.valid T) }, true, true⟩ ∧
    lookupTimer (extend_timer l name ad (some (.valid T))).timers name =
      some { t with expiry := some (.valid T) } := by
  have htr : optTsTruthy (some (.valid T)) = true := by
    simp [optTsTruthy, TsStr.truthy]
  have hstep : extendStep ad (some (.valid T)) t =
      ({ t with expiry := some (.valid T) }, true) := by
    simp [extendStep, hact, htr, parseTs]
  have heq : extend_timer l name ad (some (.valid T)) =
      ⟨replaceTimer l name { t with expiry := some (.valid T) }, true, true⟩ := by
    simp [extend_timer, hlk, htr, hstep]
  refine ⟨heq, ?_⟩
  rw [heq]
  exact lookupTimer_replaceTimer_self hlk

def c10T : Timer :=
  { state := STATE_ACTIVE, expiry := some (.valid 100) }

def c10L : TimerCol := [("y", c10T)]

theorem C10_extend_new_expiry_precedence_witness :
    (lookupTimer c10L "y" = some c10T ∧ c10T.state = STATE_ACTIVE) ∧
    extend_timer c10L "y" (some (-7)) (some (.valid 200)) =
      ⟨replaceTimer c10L "y" { c10T with expiry := some (.valid 200) }, true, true⟩ :=
  ⟨⟨by decide, by decide⟩,
    (C10_extend_new_expiry_precedence c10L "y" c10T 200 (some (-7))
      (by decide) (by decide)).1⟩

def c5T : Timer := { state := STATE_ACTIVE, expiry := some (.valid 100) }

def c5L : TimerCol := [("T3", c5T)]

/-- C5 counterexample: on an existing Active timer, extend with the
non-positive add_duration minus five together with a parsable new_expiry
is not rejected: the new_expiry branch runs first, the expiry is
replaced, the snapshot is saved and the notification fires, although the
claim demands rejection with no state change whenever add_duration is
given but not positive. -/
theorem C5_extend_counterexample :
    lookupTimer c5L "T3" = some c5T ∧
    c5T.state = STATE_ACTIVE ∧
    (-5 : Int) ≤ 0 ∧
    (extend_timer c5L "T3" (some (-5)) (some (.valid 200))).saved = true ∧
    (extend_timer c5L "T3" (some (-5)) (some (.valid 200))).notified = true ∧
    lookupTimer (extend_timer c5L "T3" (some (-5)) (some (.valid 200))).timers "T3" =
      some { c5T with expiry := some (.valid 200) } := by
  decide

/-- C5 amended: extend on an existing Active timer is rejected with no
state change, no persist and no notification whenever, by Python
truthiness, neither argument is effectively given (absent, zero
add_duration or empty new_expiry string); or add_duration is given but
not positive while new_expiry is absent or empty; or new_expiry is a
non-empty string that does not parse, regardless of add_duration. When a
parsable non-empty new_expiry is given it takes precedence and is
applied even if add_duration is invalid. In every rejected case the
collection, hence the expiry of the timer, is exactly what it was before
the call. -/
theorem C5_extend_rejections (l : TimerCol) (name : String) (t : Timer)
    (hlk : lookupTimer l name = some t) (hact : t.state = STATE_ACTIVE) :
    (∀ (ad : Option Int) (ne : Option TsStr),
      optIntTruthy ad = false → optTsTruthy ne = false →
      extend_timer l name ad ne = ⟨l, false, false⟩) ∧
    (∀ (d : Int) (ne : Option TsStr), d ≤ 0 → optTsTruthy ne = false →
      extend_timer l name (some d) ne = ⟨l, false, false⟩) ∧
    (∀ (s : String) (ad : Option Int), s ≠ "" →
      extend_timer l name ad (some (.invalid s)) = ⟨l, false, false⟩) := by
  refine ⟨?_, ?_, ?_⟩
  · intro ad ne h1 h2
    simp [extend_timer, hlk, h1, h2]
  · intro d ne hd hne
    by_cases hd0 : d = 0
    · have h1 : optIntTruthy (some d) = false := by
        simp [optIntTruthy, hd0]
      simp [extend_timer, hlk, h1, hne]
    · have h1 : optIntTruthy (some d) = true := by
        simp [optIntTruthy, hd0]
      have hstep : extendStep (some d) ne t = (t, false) := by
        simp [extendStep, hact, hne, hd]
      simp [extend_timer, hlk, h1, hne, hstep]
  · intro s ad hs
    have h2 : optTsTruthy (some (.invalid s)) = true := by
      simp [optTsTruthy, TsStr.truthy, hs]
    have hstep : extendStep ad (some (.invalid s)) t = (t, false) := by
      simp [extendStep, hact, h2, parseTs]
    simp [extend_timer, hlk, h2, hstep]

theorem C5_extend_rejections_witness :
    (lookupTimer c5L "T3" = some c5T ∧ c5T.state = STATE_ACTIVE ∧
      ("not-a-date" : String) ≠ "") ∧
    extend_timer c5L "T3" none (some (.invalid "not-a-date")) = ⟨c5L, false, false⟩ :=
  ⟨⟨by decide, by decide, by decide⟩,
    (C5_extend_rejections c5L "T3" c5T (by decide) (by decide)).2.2
      "not-a-date" none (by decide)⟩

/-! ### Pause and resume -/

/-- C7: pause and resume round trip: for every Active timer with expiry
E, pausing at time t1 stores remaining_duration max 0 (E - t1), and
resuming at time t2 at or after t1 sets the new expiry to t2 plus that
stored remaining duration, so the remaining time is preserved minus the
elapsed wall time between the two calls and the timer is not reset to
its full original duration. -/
theorem C7_pause_resume_round_trip (l : TimerCol) (name : String) (t : Timer)
    (E t1 t2 : Int) (hlk : lookupTimer l name = some t)
    (hact : t.state = STATE_ACTIVE) (hexp : t.expiry = some (.valid E))
    (_h12 : t1 ≤ t2) :
    lookupTimer (pause_timer t1 name l) name =
      some { t with state := STATE_PAUSED, expiry := none,
                    remaining_duration := some (max 0 (E - t1)) } ∧
    lookupTimer (resume_timer t2 name (pause_timer t1 name l)) name =
      some { t with state := STATE_ACTIVE,
                    expiry := some (.valid (t2 + max 0 (E - t1))),
                    remaining_duration := none } := by
  have hpu : pauseUpd t1 t =
      { t with state := STATE_PAUSED, expiry := none,
               remaining_duration := some (max 0 (E - t1)) } := by
    simp [pauseUpd, hact, hexp, parseTs]
  have hp1 : lookupTimer (pause_timer t1 name l) name = some (pauseUpd t1 t) := by
    simp only [pause_timer, hlk]
    exact lookupTimer_replaceTimer_self hlk
  rw [hpu] at hp1
  refine ⟨hp1, ?_⟩
  have hr1 : lookupTimer (resume_timer t2 name (pause_timer t1 name l)) name =
      some (resumeUpd t2
        { t with state := STATE_PAUSED, expiry := none,
                 remaining_duration := some (max 0 (E - t1)) }) := by
    simp only [resume_timer, hp1]
    exact lookupTimer_replaceTimer_self hp1
  rw [hr1]
  simp [resumeUpd]

def c7T : Timer := { state := STATE_ACTIVE, expiry := some (.valid 100) }

def c7L : TimerCol := [("T2", c7T)]

theorem C7_pause_resume_round_trip_witness :
    (lookupTimer c7L "T2" = some c7T ∧ c7T.state = STATE_ACTIVE ∧
      c7T.expiry = some (.valid 100) ∧ (40 : Int) ≤ 42) ∧
    lookupTimer (resume_timer 42 "T2" (pause_timer 40 "T2" c7L)) "T2" =
      some { c7T with state := STATE_ACTIVE,
                      expiry := some (.valid (42 + max 0 (100 - 40))),
                      remaining_duration := none } :=
  ⟨⟨by decide, by decide, by decide, by decide⟩,
    (C7_pause_resume_round_trip c7L "T2" c7T 100 40 42 (by decide)
      (by decide) (by decide) (by decide)).2⟩

/-! ### The per-record wellformedness invariant -/

/-- Whether a stored expiry field holds a parsable timestamp string. -/
def goodExpiry : Option TsStr → Bool
  | some (.valid _) => true
  | _ => false

/-- A wellformed record: Active with a parsable expiry and no remaining
duration, or Paused with a remaining duration and no expiry. Every record
reachable through the Lifecycle API from the empty collection satisfies
this. -/
def Timer.wf (t : Timer) : Bool :=
  (decide (t.state = STATE_ACTIVE) && goodExpiry t.expiry &&
    t.remaining_duration.isNone) ||
  (decide (t.state = STATE_PAUSED) && t.expiry.isNone &&
    t.remaining_duration.isSome)

theorem active_ne_paused : STATE_ACTIVE ≠ STATE_PAUSED := by decide

theorem goodExpiry_iff {o : Option TsStr} :
    goodExpiry o = true ↔ ∃ e : Int, o = some (.valid e) := by
  cases o with
  | none => simp [goodExpiry]
  | some ts =>
    cases ts with
    | valid e => simp [goodExpiry]
    | invalid s => simp [goodExpiry]

theorem wf_iff {t : Timer} :
    t.wf = true ↔
      (t.state = STATE_ACTIVE ∧ (∃ e : Int, t.expiry = some (.valid e)) ∧
        t.remaining_duration = none) ∨
      (t.state = STATE_PAUSED ∧ t.expiry = none ∧
        ∃ r : Int, t.remaining_duration = some r) := by
  simp only [Timer.wf, goodExpiry_iff, Bool.or_eq_true, Bool.and_eq_true,
    decide_eq_true_eq, Option.isNone_iff_eq_none, Option.isSome_iff_exists]
  tauto

theorem wf_pauseUpd (now : Int) {t : Timer} (h : t.wf = true) :
    (pauseUpd now t).wf = true := by
  rcases wf_iff.mp h with ⟨hst, ⟨e, hexp⟩, hrem⟩ | ⟨hst, hexp, ⟨r, hrem⟩⟩
  · have hne : ¬ t.state ≠ STATE_ACTIVE := by simp [hst]
    rw [pauseUpd, if_neg hne, hexp]
    simp [parseTs, Timer.wf]
  · have hne : t.state ≠ STATE_ACTIVE := by
      rw [hst]
      exact paused_ne_active
    rw [pauseUpd, if_pos hne]
    exact h

theorem wf_resumeUpd (now : Int) {t : Timer} (h : t.wf = true) :
    (resumeUpd now t).wf = true := by
  rcases wf_iff.mp h with ⟨hst, ⟨e, hexp⟩, hrem⟩ | ⟨hst, hexp, ⟨r, hrem⟩⟩
  · have hne : t.state ≠ STATE_PAUSED := by
      rw [hst]
      exact active_ne_paused
    rw [resumeUpd, if_pos hne]
    exact h
  · have hne : ¬ t.state ≠ STATE_PAUSED := by simp [hst]
    rw [resumeUpd, if_neg hne]
    simp [Timer.wf, goodExpiry]

theorem wf_extendStep (ad : Option Int) (ne : Option TsStr) {t : Timer}
    (h : t.wf = true) : ((extendStep ad ne t).1).wf = true := by
  rcases wf_iff.mp h with ⟨hst, ⟨e, hexp⟩, hrem⟩ | ⟨hst, hexp, ⟨r, hrem⟩⟩
  · have hne : ¬ t.state ≠ STATE_ACTIVE := by simp [hst]
    unfold extendStep
    rw [if_neg hne]
    by_cases htr : optTsTruthy ne
    · rw [if_pos htr]
      cases ne with
      | none => exact h
      | some ts =>
        cases ts with
        | valid x => simp [parseTs, Timer.wf, goodExpiry, hst, hrem]
        | invalid s => simpa [parseTs] using h
    · rw [if_neg htr]
      cases ad with
      | none => exact h
      | some d =>
        by_cases hd : d ≤ 0
        · simpa [hd] using h
        · simp [hd, hexp, parseTs, Timer.wf, goodExpiry, hst, hrem]
  · have hne : t.state ≠ STATE_ACTIVE := by
      rw [hst]
      exact paused_ne_active
    unfold extendStep
    rw [if_pos hne]
    exact h

/-- Every record of the collection is wellformed. -/
def AllWF (l : TimerCol) : Prop := ∀ p ∈ l, Timer.wf p.2 = true

theorem allWF_replaceTimer {l : TimerCol} {n : String} {t' : Timer}
    (h : AllWF l) (ht : t'.wf = true) : AllWF (replaceTimer l n t') := by
  intro q hq
  obtain ⟨p, hp, hq'⟩ := mem_replaceTimer hq
  by_cases hn : p.1 = n
  · rw [hq', if_pos hn]
    exact ht
  · rw [hq', if_neg hn]
    exact h p hp

theorem allWF_filter {l : TimerCol} {f : String × Timer → Bool}
    (h : AllWF l) : AllWF (l.filter f) :=
  fun p hp => h p (List.mem_filter.mp hp).1

theorem allWF_applyOp (now : Int) (op : Op) {l : TimerCol} (h : AllWF l) :
    AllWF (applyOp now op l) := by
  cases op with
  | create name duration actions rb groups =>
    show AllWF (create_timer now name duration actions rb groups l)
    rw [create_timer, upsertTimer]
    have hwf : Timer.wf
        { state := STATE_ACTIVE, expiry := some (.valid (now + duration)),
          remaining_duration := none, actions := actions,
          restart_behavior := rb, groups := groups } = true := by
      simp [Timer.wf, goodExpiry]
    split
    · exact allWF_replaceTimer h hwf
    · intro p hp
      rcases List.mem_append.mp hp with hp' | hp'
      · exact h p hp'
      · rw [List.mem_singleton.mp hp']
        exact hwf
  | pause name =>
    show AllWF (pause_timer now name l)
    rw [pause_timer]
    cases hlk : lookupTimer l name with
    | none => exact h
    | some t =>
      exact allWF_replaceTimer h (wf_pauseUpd now (h _ (lookupTimer_mem hlk)))
  | resume name =>
    show AllWF (resume_timer now name l)
    rw [resume_timer]
    cases hlk : lookupTimer l name with
    | none => exact h
    | some t =>
      exact allWF_replaceTimer h (wf_resumeUpd now (h _ (lookupTimer_mem hlk)))
  | cancel name =>
    show AllWF (cancel_timer name l)
    rw [cancel_timer]
    cases hlk : lookupTimer l name with
    | none => exact h
    | some t => exact allWF_filter h
  | extend name ad ne =>
    show AllWF (extend_timer l name ad ne).timers
    rw [extend_timer]
    cases hlk : lookupTimer l name with
    | none => exact h
    | some t =>
      show AllWF (if ¬ optIntTruthy ad ∧ ¬ optTsTruthy ne then
          (⟨l, false, false⟩ : ExtendResult)
        else if (extendStep ad ne t).2 then
          ⟨replaceTimer l name (extendStep ad ne t).1, true, true⟩
        else ⟨l, false, false⟩).timers
      by_cases hng : ¬ optIntTruthy ad ∧ ¬ optTsTruthy ne
      · rw [if_pos hng]
        exact h
      · rw [if_neg hng]
        by_cases hap : (extendStep ad ne t).2 = true
        · rw [if_pos hap]
          exact allWF_replaceTimer h
            (wf_extendStep ad ne (h _ (lookupTimer_mem hlk)))
        · rw [if_neg hap]
          exact h

theorem allWF_applyOps (ops : List (Int × Op)) {l : TimerCol} (h : AllWF l) :
    AllWF (applyOps ops l) := by
  induction ops generalizing l with
  | nil => exact h
  | cons p rest ih => exact ih (allWF_applyOp p.1 p.2 h)

/-- C6: state invariant preserved by every Lifecycle API operation:
starting from an empty collection, after any sequence of create, pause,
resume, cancel and extend calls, every timer in the collection has its
expiry field present exactly when its state is Active and its
remaining_duration field present exactly when its state is Paused. -/
theorem C6_state_field_invariant (ops : List (Int × Op)) (n : String)
    (t : Timer) (hmem : (n, t) ∈ applyOps ops []) :
    (t.expiry.isSome = true ↔ t.state = STATE_ACTIVE) ∧
    (t.remaining_duration.isSome = true ↔ t.state = STATE_PAUSED) := by
  have hwf : t.wf = true :=
    allWF_applyOps ops (fun p hp => absurd hp (List.not_mem_nil p)) (n, t) hmem
  rcases wf_iff.mp hwf with ⟨hst, ⟨e, hexp⟩, hrem⟩ | ⟨hst, hexp, ⟨r, hrem⟩⟩
  · constructor
    · simp [hexp, hst]
    · simp [hrem, hst, active_ne_paused]
  · constructor
    · simp [hexp, hst, paused_ne_active]
    · simp [hrem, hst]

def c6wT : Timer :=
  { state := STATE_ACTIVE, expiry := some (.valid 5),
    remaining_duration := none, actions := [],
    restart_behavior := RESTART_RESUME, groups := [] }

theorem C6_state_field_invariant_witness :
    ("a", c6wT) ∈ applyOps [(0, .create "a" 5 [] RESTART_RESUME [])] [] ∧
    ((c6wT.expiry.isSome = true ↔ c6wT.state = STATE_ACTIVE) ∧
      (c6wT.remaining_duration.isSome = true ↔ c6wT.state = STATE_PAUSED)) :=
  ⟨by decide,
    C6_state_field_invariant [(0, .create "a" 5 [] RESTART_RESUME [])] "a" c6wT
      (by decide)⟩

/-! ### Group operations -/

theorem extendStep_cases (ad : Option Int) (ne : Option TsStr) (t : Timer) :
    extendStep ad ne t = (t, false) ∨
    ∃ x : Int, extendStep ad ne t = ({ t with expiry := some (.valid x) }, true) := by
  unfold extendStep
  repeat' split
  all_goals first
    | exact Or.inl rfl
    | exact Or.inr ⟨_, rfl⟩

theorem extendStep_not_applied {ad : Option Int} {ne : Option TsStr} {t : Timer}
    (h : (extendStep ad ne t).2 = false) : (extendStep ad ne t).1 = t := by
  rcases extendStep_cases ad ne t with hc | ⟨x, hc⟩
  · rw [hc]
  · rw [hc] at h
    cases h

theorem pause_timer_lookup_ne (now : Int) (nm : String) (l : TimerCol)
    (m : String) (h : m ≠ nm) :
    lookupTimer (pause_timer now nm l) m = lookupTimer l m := by
  rw [pause_timer]
  cases hlk : lookupTimer l nm with
  | none => rfl
  | some t => exact lookupTimer_replaceTimer_ne h

theorem pause_timer_lookup_self (now : Int) (nm : String) (l : TimerCol)
    (t : Timer) (hlk : lookupTimer l nm = some t) :
    lookupTimer (pause_timer now nm l) nm = some (pauseUpd now t) := by
  simp only [pause_timer, hlk]
  exact lookupTimer_replaceTimer_self hlk

theorem resume_timer_lookup_ne (now : Int) (nm : String) (l : TimerCol)
    (m : String) (h : m ≠ nm) :
    lookupTimer (resume_timer now nm l) m = lookupTimer l m := by
  rw [resume_timer]
  cases hlk : lookupTimer l nm with
  | none => rfl
  | some t => exact lookupTimer_replaceTimer_ne h

theorem resume_timer_lookup_self (now : Int) (nm : String) (l : TimerCol)
    (t : Timer) (hlk : lookupTimer l nm = some t) :
    lookupTimer (resume_timer now nm l) nm = some (resumeUpd now t) := by
  simp only [resume_timer, hlk]
  exact lookupTimer_replaceTimer_self hlk

theorem extend_timer_lookup_ne (ad : Option Int) (ne : Option TsStr)
    (nm : String) (l : TimerCol) (m : String) (h : m ≠ nm) :
    lookupTimer (extend_timer l nm ad ne).timers m = lookupTimer l m := by
  cases hlk : lookupTimer l nm with
  | none => simp only [extend_timer, hlk]
  | some t =>
    simp only [extend_timer, hlk]
    by_cases hng : ¬ optIntTruthy ad ∧ ¬ optTsTruthy ne
    · rw [if_pos hng]
    · rw [if_neg hng]
      by_cases hap : (extendStep ad ne t).2 = true
      · rw [if_pos hap]
        exact lookupTimer_replaceTimer_ne h
      · rw [if_neg hap]

theorem extend_timer_lookup_self (ad : Option Int) (ne : Option TsStr)
    (nm : String) (l : TimerCol) (t : Timer)
    (hlk : lookupTimer l nm = some t) :
    lookupTimer (extend_timer l nm ad ne).timers nm = some (extendUpd ad ne t) := by
  simp only [extend_timer, hlk]
  by_cases hng : ¬ optIntTruthy ad ∧ ¬ optTsTruthy ne
  · rw [if_pos hng, extendUpd, if_pos hng]
    exact hlk
  · rw [if_neg hng]
    by_cases hap : (extendStep ad ne t).2 = true
    · rw [if_pos hap, extendUpd, if_neg hng]
      exact lookupTimer_replaceTimer_self hlk
    · rw [if_neg hap, extendUpd, if_neg hng,
        extendStep_not_applied (Bool.not_eq_true _ ▸ hap)]
      exact hlk

theorem fanout_foldl_frame (g : String) (f : String → TimerCol → TimerCol)
    (hfne : ∀ (nm : String) (l : TimerCol) (m : String), m ≠ nm →
      lookupTimer (f nm l) m = lookupTimer l m)
    (w : List (String × Timer)) (a : TimerCol) (m : String) (tm : Timer)
    (hlk : lookupTimer a m = some tm)
    (hw : ∀ p ∈ w, p.1 = m → g ∉ p.2.groups) :
    lookupTimer
      (w.foldl (fun acc p => if g ∈ p.2.groups then f p.1 acc else acc) a) m =
      some tm := by
  induction w generalizing a with
  | nil => exact hlk
  | cons p rest ih =>
    rw [List.foldl_cons]
    refine ih _ ?_ (fun q hq => hw q (List.mem_cons_of_mem _ hq))
    by_cases hg : g ∈ p.2.groups
    · rw [if_pos hg]
      have hpm : m ≠ p.1 := by
        intro hc
        exact hw p (List.mem_cons_self p rest) hc.symm hg
      rw [hfne p.1 a m hpm]
      exact hlk
    · rw [if_neg hg]
      exact hlk

theorem fanout_foldl_member (g : String) (f : String → TimerCol → TimerCol)
    (u : Timer → Timer)
    (hfne : ∀ (nm : String) (l : TimerCol) (m : String), m ≠ nm →
      lookupTimer (f nm l) m = lookupTimer l m)
    (hfself : ∀ (nm : String) (l : TimerCol) (t : Timer),
      lookupTimer l nm = some t → lookupTimer (f nm l) nm = some (u t))
    (w : List (String × Timer)) (a : TimerCol) (m : String) (tm : Timer)
    (hlk : lookupTimer a m = some tm) (hmem : (m, tm) ∈ w)
    (hnd : (w.map Prod.fst).Nodup) (hg : g ∈ tm.groups) :
    lookupTimer
      (w.foldl (fun acc p => if g ∈ p.2.groups then f p.1 acc else acc) a) m =
      some (u tm) := by
  induction w generalizing a with
  | nil => cases hmem
  | cons p rest ih =>
    rw [List.map_cons, List.nodup_cons] at hnd
    rw [List.foldl_cons]
    rcases List.mem_cons.mp hmem with heq | hmem'
    · rw [← heq, if_pos hg]
      refine fanout_foldl_frame g f hfne rest (f m a) m (u tm)
        (hfself m a tm hlk) ?_
      intro q hq hqm
      have hq1 : m ∈ rest.map Prod.fst := hqm ▸ List.mem_map_of_mem Prod.fst hq
      have hnotin : m ∉ rest.map Prod.fst := by
        have := hnd.1
        rw [← heq] at this
        exact this
      exact absurd hq1 hnotin
    · have hpm : m ≠ p.1 := by
        intro hc
        apply hnd.1
        rw [← hc]
        exact List.mem_map_of_mem Prod.fst hmem'
      refine ih _ ?_ hmem' hnd.2
      by_cases hg2 : g ∈ p.2.groups
      · rw [if_pos hg2, hfne p.1 a m hpm]
        exact hlk
      · rw [if_neg hg2]
        exact hlk

theorem cancel_timer_eq_filter (n : String) (l : TimerCol) :
    cancel_timer n l = l.filter (fun p => decide (p.1 ≠ n)) := by
  rw [cancel_timer]
  cases hlk : lookupTimer l n with
  | some t => rfl
  | none =>
    have hnotin := lookupTimer_eq_none.mp hlk
    rw [eq_comm, List.filter_eq_self]
    intro p hp
    simp only [decide_eq_true_eq]
    intro hc
    exact hnotin (hc ▸ List.mem_map_of_mem Prod.fst hp)

theorem foldl_cancel_eq_filter (ns : List String) (l : TimerCol) :
    ns.foldl (fun acc n => cancel_timer n acc) l =
      l.filter (fun p => decide (p.1 ∉ ns)) := by
  induction ns generalizing l with
  | nil =>
    rw [List.foldl_nil, eq_comm, List.filter_eq_self]
    intro p _
    simp
  | cons n rest ih =>
    rw [List.foldl_cons, ih, cancel_timer_eq_filter, List.filter_filter]
    apply List.filter_congr
    intro p _
    simp only [List.mem_cons, not_or, Bool.decide_and]
    rw [Bool.and_comm]

theorem cancel_group_eq_filter (g : String) {l : TimerCol}
    (hnd : (l.map Prod.fst).Nodup) :
    cancel_group g l = l.filter (fun p => decide (g ∉ p.2.groups)) := by
  rw [cancel_group, foldl_cancel_eq_filter]
  apply List.filter_congr
  intro p hp
  simp only [decide_eq_decide]
  constructor
  · intro hnotin hg
    apply hnotin
    exact List.mem_map_of_mem Prod.fst (List.mem_filter.mpr ⟨hp, by simpa using hg⟩)
  · intro hng hc
    obtain ⟨q, hqf, hq1⟩ := List.mem_map.mp hc
    have hql := List.mem_filter.mp hqf
    rw [nodupKeys_inj hnd hql.1 hp hq1] at hql
    exact hng (by simpa using hql.2)

/-- C8: every group operation applies the corresponding single timer
operation to exactly the timers whose groups list contains the target
group, and leaves every timer whose groups list does not contain it
completely unchanged; cancel_group first snapshots the matching names and
then cancels each, removing exactly the members from the collection. -/
theorem C8_group_operations (now : Int) (ad : Option Int) (ne : Option TsStr)
    (g : String) (l : TimerCol) (hnd : (l.map Prod.fst).Nodup)
    (n : String) (t : Timer) (hmem : (n, t) ∈ l) :
    (g ∉ t.groups →
      lookupTimer (pause_group now g l) n = some t ∧
      lookupTimer (resume_group now g l) n = some t ∧
      lookupTimer (extend_group ad ne g l) n = some t ∧
      lookupTimer (cancel_group g l) n = some t) ∧
    (g ∈ t.groups →
      lookupTimer (pause_group now g l) n = some (pauseUpd now t) ∧
      lookupTimer (resume_group now g l) n = some (resumeUpd now t) ∧
      lookupTimer (extend_group ad ne g l) n = some (extendUpd ad ne t) ∧
      lookupTimer (cancel_group g l) n = none) ∧
    cancel_group g l = l.filter (fun p => decide (g ∉ p.2.groups)) := by
  have hlk : lookupTimer l n = some t := mem_lookupTimer hnd hmem
  have hcg := cancel_group_eq_filter g hnd
  refine ⟨?_, ?_, hcg⟩
  · intro hg
    have hw : ∀ p ∈ l, p.1 = n → g ∉ p.2.groups := by
      intro p hp hpn
      rw [nodupKeys_inj hnd hp hmem hpn]
      exact hg
    refine ⟨?_, ?_, ?_, ?_⟩
    · exact fanout_foldl_frame g (pause_timer now)
        (pause_timer_lookup_ne now) l l n t hlk hw
    · exact fanout_foldl_frame g (resume_timer now)
        (resume_timer_lookup_ne now) l l n t hlk hw
    · exact fanout_foldl_frame g (fun nm acc => (extend_timer acc nm ad ne).timers)
        (fun nm l' m h => extend_timer_lookup_ne ad ne nm l' m h) l l n t hlk hw
    · rw [hcg]
      have hmemf : (n, t) ∈ l.filter (fun p => decide (g ∉ p.2.groups)) :=
        List.mem_filter.mpr ⟨hmem, by simpa using hg⟩
      have hndf : ((l.filter (fun p => decide (g ∉ p.2.groups))).map Prod.fst).Nodup :=
        (((List.filter_sublist l).map Prod.fst)).nodup hnd
      exact mem_lookupTimer hndf hmemf
  · intro hg
    refine ⟨?_, ?_, ?_, ?_⟩
    · exact fanout_foldl_member g (pause_timer now) (pauseUpd now)
        (pause_timer_lookup_ne now) (pause_timer_lookup_self now)
        l l n t hlk hmem hnd hg
    · exact fanout_foldl_member g (resume_timer now) (resumeUpd now)
        (resume_timer_lookup_ne now) (resume_timer_lookup_self now)
        l l n t hlk hmem hnd hg
    · exact fanout_foldl_member g
        (fun nm acc => (extend_timer acc nm ad ne).timers) (extendUpd ad ne)
        (fun nm l' m h => extend_timer_lookup_ne ad ne nm l' m h)
        (fun nm l' t' h => extend_timer_lookup_self ad ne nm l' t' h)
        l l n t hlk hmem hnd hg
    · rw [hcg, lookupTimer_eq_none]
      intro hc
      obtain ⟨q, hqf, hq1⟩ := List.mem_map.mp hc
      have hql := List.mem_filter.mp hqf
      rw [nodupKeys_inj hnd hql.1 hmem hq1] at hql
      exact (by simpa using hql.2 : g ∉ t.groups) hg

def c8A : Timer :=
  { state := STATE_ACTIVE, expiry := some (.valid 100), groups := ["g"] }

def c8B : Timer :=
  { state := STATE_ACTIVE, expiry := some (.valid 200), groups := ["h"] }

def c8L : TimerCol := [("a", c8A), ("b", c8B)]

theorem C8_group_operations_witness :
    ((c8L.map Prod.fst).Nodup ∧ ("a", c8A) ∈ c8L ∧ "g" ∈ c8A.groups ∧
      ("b", c8B) ∈ c8L ∧ "g" ∉ c8B.groups) ∧
    lookupTimer (pause_group 40 "g" c8L) "a" = some (pauseUpd 40 c8A) ∧
    lookupTimer (cancel_group "g" c8L) "a" = none ∧
    lookupTimer (pause_group 40 "g" c8L) "b" = some c8B ∧
    lookupTimer (cancel_group "g" c8L) "b" = some c8B :=
  ⟨by decide,
    ((C8_group_operations 40 none none "g" c8L (by decide) "a" c8A
      (by decide)).2.1 (by decide)).1,
    ((C8_group_operations 40 none none "g" c8L (by decide) "a" c8A
      (by decide)).2.1 (by decide)).2.2.2,
    ((C8_group_operations 40 none none "g" c8L (by decide) "b" c8B
      (by decide)).1 (by decide)).1,
    ((C8_group_operations 40 none none "g" c8L (by decide) "b" c8B
      (by decide)).1 (by decide)).2.2.2⟩

/-! ### Action failure isolation -/

theorem executeTimerActions_append (exec : Action → Bool)
    (xs ys : List Action) :
    executeTimerActions exec (xs ++ ys) =
      executeTimerActions exec xs ++ executeTimerActions exec ys := by
  induction xs with
  | nil => rfl
  | cons a rest ih =>
    rw [List.cons_append, executeTimerActions, executeTimerActions]
    by_cases h : actionDispatchable a
    · rw [if_pos h, if_pos h, ih, List.cons_append]
    · rw [if_neg h, if_neg h, ih]

/-- C9: when the ordered action list of a timer is dispatched, an
exception raised while executing any one action is caught and logged, and
every subsequent action in the same list is still attempted; no single
action failure prevents the subsequent removal of the timer. Stated as:
whatever the outcomes the external executor produces, the sequence of
attempted actions is exactly the dispatchable actions in list order; the
walk decomposes over appending, so the attempt on a failing action never
truncates the attempts after it; and the collection surviving a tick,
with its expired and invalid removal lists, does not depend on the
executor outcomes at all. -/
theorem C9_action_failure_isolation (exec exec' : Action → Bool)
    (actions : List Action) (now : Int) (l : TimerCol) :
    (executeTimerActions exec actions).map Prod.fst =
      actions.filter actionDispatchable ∧
    (∀ xs ys : List Action,
      executeTimerActions exec (xs ++ ys) =
        executeTimerActions exec xs ++ executeTimerActions exec ys) ∧
    (asyncCheckTimers exec now l).timers = (asyncCheckTimers exec' now l).timers ∧
    (asyncCheckTimers exec now l).expired = (asyncCheckTimers exec' now l).expired ∧
    (asyncCheckTimers exec now l).invalid = (asyncCheckTimers exec' now l).invalid := by
  refine ⟨?_, executeTimerActions_append exec, rfl, rfl, rfl⟩
  induction actions with
  | nil => rfl
  | cons a rest ih =>
    rw [executeTimerActions]
    by_cases h : actionDispatchable a
    · rw [if_pos h, List.map_cons, ih, List.filter_cons_of_pos h]
    · rw [if_neg h, ih, List.filter_cons_of_neg (by simpa using h)]

end DynamicTimers
